import Mathlib

/-!
Verification of `allennlp/steps/examples.py`: a shallow embedding of the four
data-preparation steps (`HuggingfaceDataset`, `TextOnlyDataset`, `Tokenize`,
`PiqaInstances`) and proofs about them.

External libraries (the HuggingFace tokenizer and dataset loader, the `re`
module's `fullmatch`) are modelled as explicit functional parameters, i.e. as
fixed deterministic functions, matching the spec's treatment of them as black
boxes.  Torch tensors are modelled as the lists of numbers they are built
from (`torch.tensor(xs, dtype=...)` only changes representation); the
`dtype=torch.bool` conversion is modelled as mapping each entry to `x != 0`.
-/

namespace Allennlp

/-- Model of `allennlp.data.fields.transformer_text_field.TransformerTextField`:
a record of the tensors handed to its constructor.  The constructor defaults
(everything after the two id tensors absent, padding id 0) mirror the call
sites in `examples.py`, which pass only a prefix of the arguments. -/
structure TransformerTextField where
  input_ids : List Int
  token_type_ids : List Int
  attention_mask : Option (List Bool) := none
  special_tokens_mask : Option (List Bool) := none
  offset_mapping : Option (List (Int × Int)) := none
  padding_token_id : Int := 0
deriving DecidableEq

/-- The per-string output of a tokenizer: the lists behind
`encoded["input_ids"][i]`, `encoded["token_type_ids"][i]`,
`encoded["special_tokens_mask"][i]` and `encoded["offset_mapping"][i]`. -/
structure StrEncoding where
  input_ids : List Int
  token_type_ids : List Int
  special_tokens_mask : List Int
  offset_mapping : List (Int × Int)
deriving DecidableEq

/-- The per-pair output of a tokenizer on a `(goal, solution)` sentence pair,
as used by `PiqaInstances.run` (which requests only ids and type ids). -/
structure PairEncoding where
  input_ids : List Int
  token_type_ids : List Int
deriving DecidableEq

/-- Model of a HuggingFace tokenizer, treated as a fixed deterministic
function.  `encode` takes `add_special_tokens` and `max_length` (the code
passes `truncation := max_length is not None`, so the `Option` carries both)
and one string; `encodePair` takes `max_length` and a sentence pair (the
PIQA call site fixes `add_special_tokens=True, truncation=True`). -/
structure Tokenizer where
  encode : Bool → Option Nat → String → StrEncoding
  encodePair : Nat → String × String → PairEncoding
  pad_token_id : Int
  pad_token_type_id : Int
  vocabTokens : List String

/-- Result of `tokenizer.batch_encode_plus(strings, ...)` in `Tokenize.run`:
per-key lists indexed like `strings`.  `attention_mask` is never present
(`return_attention_mask=False`); `special_tokens_mask` and `offset_mapping`
are present exactly when requested. -/
structure BatchEncoding where
  input_ids : List (List Int)
  token_type_ids : List (List Int)
  special_tokens_mask : Option (List (List Int))
  offset_mapping : Option (List (List (Int × Int)))

/-- Without padding, `batch_encode_plus` encodes each string independently:
its per-key lists are the per-string encodings in input order. -/
def Tokenizer.batch_encode_plus (tok : Tokenizer) (strings : List String)
    (addSpecial : Bool) (maxLen : Option Nat) (retSTM retOM : Bool) : BatchEncoding :=
  { input_ids := strings.map fun s => (tok.encode addSpecial maxLen s).input_ids
    token_type_ids := strings.map fun s => (tok.encode addSpecial maxLen s).token_type_ids
    special_tokens_mask :=
      if retSTM then some (strings.map fun s => (tok.encode addSpecial maxLen s).special_tokens_mask)
      else none
    offset_mapping :=
      if retOM then some (strings.map fun s => (tok.encode addSpecial maxLen s).offset_mapping)
      else none }

/-- Model of `allennlp.data.Vocabulary` at the granularity this file needs:
a list of (namespace, transformer vocab) entries in insertion order. -/
structure Vocabulary where
  namespaces : List (String × List String)
deriving DecidableEq

/-- Model of `Vocabulary.empty()`. -/
def Vocabulary.empty : Vocabulary := ⟨[]⟩

/-- Model of `vocab.add_transformer_vocab(tokenizer, name)`: record the
tokenizer's vocabulary under the given namespace. -/
def Vocabulary.add_transformer_vocab (v : Vocabulary) (tok : Tokenizer) (name : String) :
    Vocabulary :=
  ⟨v.namespaces ++ [(name, tok.vocabTokens)]⟩

/-- Model of the allennlp `Field` values constructed by this file:
`TransformerTextField`s, `ListField`s and `IndexField`s (an `IndexField`
stores the index and the field it indexes into). -/
inductive Field where
  | ttf : TransformerTextField → Field
  | listF : List Field → Field
  | indexF : Int → Field → Field

/-- Model of `allennlp.data.Instance`: a mapping from field name to field,
kept as a list in insertion order (Python dicts preserve insertion order). -/
structure Instance where
  fields : List (String × Field)

/-- JSON-like values making up a dataset split: strings, opaque non-string
leaves (`num` stands for the ints/floats/bools this file never inspects),
already-built text fields, Python lists, HuggingFace `Dataset` objects
(list-like for `replace_string_objects`, but not `isinstance(o, List)`, so
`find_string_objects` does not look inside them) and dicts. -/
inductive JsonValue where
  | str : String → JsonValue
  | num : Int → JsonValue
  | field : TransformerTextField → JsonValue
  | list : List JsonValue → JsonValue
  | dset : List JsonValue → JsonValue
  | dict : List (String × JsonValue) → JsonValue

/-- Model of `allennlp.steps.dataset.AllenNlpDataset`: a dataclass of splits
(name to list of instances, in insertion order), an optional vocabulary and
a metadata dict. -/
structure AllenNlpDataset (α : Type) where
  splits : List (String × List α)
  vocab : Option Vocabulary
  metadata : List (String × String) := []

/-- The Python exceptions these functions can raise. -/
inductive StepError where
  | assertionError
  | keyError
  | attributeError
deriving DecidableEq

/-- First-match association-list lookup (Python dict key access; real dicts
have unique keys, so first match is the match). -/
def alookupFirst {α : Type} : List (String × α) → String → Option α
  | [], _ => none
  | kv :: kvs, q => if kv.1 = q then some kv.2 else alookupFirst kvs q

/-- Lookup in a dict built by a comprehension: on duplicate keys the later
entry wins, so look the key up from the end. -/
def pyDictLookup {α : Type} (l : List (String × α)) (q : String) : Option α :=
  alookupFirst l.reverse q

/-- Model of `enumerate` starting at `j`, fused with a map. -/
def mapWithIndexFrom {α β : Type} (f : Nat → α → β) : Nat → List α → List β
  | _, [] => []
  | j, x :: xs => f j x :: mapWithIndexFrom f (j + 1) xs

/-- Insertion-order deduplication: the contents of a Python `set` filled by
successive `add` calls, iterated in insertion order. -/
def insertUnique (l : List String) (s : String) : List String :=
  if s ∈ l then l else l ++ [s]

/-- Deduplicate a list keeping first occurrences in order. -/
def uniqueInOrder (l : List String) : List String :=
  l.foldl insertUnique []

/-- Model of `prefix.lstrip(".")`: drop all leading dots. -/
def stripDots (s : String) : String :=
  String.mk (s.toList.dropWhile (fun c => c == '.'))

/-- Model of `should_tokenize_field` in `Tokenize.run`: every field when
`fields_to_tokenize` is `None`, otherwise any full regex match.  The `re`
module is modelled by the abstract deterministic `fm : pattern → text → Bool`. -/
def shouldTokenizeField (fm : String → String → Bool) (fieldsToTokenize : Option (List String))
    (name : String) : Bool :=
  match fieldsToTokenize with
  | none => true
  | some rs => rs.any fun r => fm r name

mutual
/-- Model of `find_string_objects`: yield each string reachable through
lists and dicts, with its dotted path, filtered by `should`.  `Dataset`
values and non-string leaves yield nothing (they fail every `isinstance`
test in the source). -/
def findStrV (should : String → Bool) (pre : String) : JsonValue → List (String × String)
  | .str s => if should (stripDots pre) then [(stripDots pre, s)] else []
  | .num _ => []
  | .field _ => []
  | .list xs => findStrL should (stripDots pre) 0 xs
  | .dset _ => []
  | .dict kvs => findStrKV should (stripDots pre) kvs
/-- List part of `find_string_objects`: `for i, item in enumerate(o)`. -/
def findStrL (should : String → Bool) (pre : String) : Nat → List JsonValue → List (String × String)
  | _, [] => []
  | i, x :: xs =>
      findStrV should (pre ++ "." ++ toString i) x ++ findStrL should pre (i + 1) xs
/-- Dict part of `find_string_objects`: `for name, item in o.items()`. -/
def findStrKV (should : String → Bool) (pre : String) :
    List (String × JsonValue) → List (String × String)
  | [] => []
  | kv :: kvs => findStrV should (pre ++ "." ++ kv.1) kv.2 ++ findStrKV should pre kvs
end

/-- The `strings` list of `Tokenize.run`: all selected strings, in
traversal order over splits, instances and values. -/
def gatherStrings (should : String → Bool) (splits : List (String × List JsonValue)) :
    List String :=
  splits.flatMap fun p => p.2.flatMap fun inst => (findStrV should "" inst).map Prod.snd

/-- The `field_names_used` set of `Tokenize.run`, in insertion order. -/
def gatherNames (should : String → Bool) (splits : List (String × List JsonValue)) :
    List String :=
  uniqueInOrder (splits.flatMap fun p => p.2.flatMap fun inst => (findStrV should "" inst).map Prod.fst)

/-- The field built for batch entry `i` in the `string_to_field`
comprehension of `Tokenize.run` (tensor construction elided; the bool dtype
cast maps each mask entry to `x != 0`). -/
def fieldFromBatch (enc : BatchEncoding) (padId : Int) (i : Nat) : TransformerTextField :=
  { input_ids := enc.input_ids.getD i []
    token_type_ids := enc.token_type_ids.getD i []
    attention_mask := none
    special_tokens_mask := enc.special_tokens_mask.map fun ls => (ls.getD i []).map fun x => x != 0
    offset_mapping := enc.offset_mapping.map fun ls => ls.getD i []
    padding_token_id := padId }

/-- The `string_to_field` dict comprehension of `Tokenize.run`, as the
association list it is built from (`for i, s in enumerate(strings)`). -/
def stringToFieldAList (strings : List String) (enc : BatchEncoding) (padId : Int) :
    List (String × TransformerTextField) :=
  mapWithIndexFrom (fun i s => (s, fieldFromBatch enc padId i)) 0 strings

/-- The field `Tokenize.run` ends up building for one selected string: the
tokenizer's encoding of that string, masks present iff requested. -/
def mkStringField (tok : Tokenizer) (addSpecial : Bool) (maxLen : Option Nat)
    (retSTM retOM : Bool) (s : String) : TransformerTextField :=
  { input_ids := (tok.encode addSpecial maxLen s).input_ids
    token_type_ids := (tok.encode addSpecial maxLen s).token_type_ids
    attention_mask := none
    special_tokens_mask :=
      if retSTM then some ((tok.encode addSpecial maxLen s).special_tokens_mask.map fun x => x != 0)
      else none
    offset_mapping :=
      if retOM then some ((tok.encode addSpecial maxLen s).offset_mapping) else none
    padding_token_id := tok.pad_token_id }

mutual
/-- Model of `replace_string_objects`: replace a string by its field when
the `string_to_field` lookup succeeds; the `KeyError` of a failed lookup is
caught and the original string returned.  Lists and `Dataset`s map to fresh
Python lists; dicts to fresh dicts with the same keys; anything else is
returned as is. -/
def replaceV (lk : String → Option TransformerTextField) : JsonValue → JsonValue
  | .str s =>
      match lk s with
      | some f => .field f
      | none => .str s
  | .num n => .num n
  | .field f => .field f
  | .list xs => .list (replaceL lk xs)
  | .dset xs => .list (replaceL lk xs)
  | .dict kvs => .dict (replaceKV lk kvs)
/-- List part of `replace_string_objects`. -/
def replaceL (lk : String → Option TransformerTextField) : List JsonValue → List JsonValue
  | [] => []
  | x :: xs => replaceV lk x :: replaceL lk xs
/-- Dict part of `replace_string_objects`. -/
def replaceKV (lk : String → Option TransformerTextField) :
    List (String × JsonValue) → List (String × JsonValue)
  | [] => []
  | kv :: kvs => (kv.1, replaceV lk kv.2) :: replaceKV lk kvs
end

/-- A step into a JSON value: a list index or a dict key. -/
inductive PathElem where
  | idx : Nat → PathElem
  | key : String → PathElem

/-- The path component string the source would build for one step. -/
def elemStr : PathElem → String
  | .idx i => toString i
  | .key k => k

/-- Follow a path of list indices and dict keys into a value.  Paths do not
enter `Dataset` values, matching `find_string_objects`. -/
def getPath (o : JsonValue) : List PathElem → Option JsonValue
  | [] => some o
  | e :: p =>
      match o, e with
      | .list xs, .idx i =>
          match xs[i]? with
          | some x => getPath x p
          | none => none
      | .dict kvs, .key k =>
          match alookupFirst kvs k with
          | some v => getPath v p
          | none => none
      | _, _ => none

/-- The prefix string `find_string_objects` computes at the end of a path,
starting from prefix `pre`: each call strips leading dots and appends
`"." ++ component`. -/
def pathStrFrom (pre : String) : List PathElem → String
  | [] => stripDots pre
  | e :: p => pathStrFrom (stripDots pre ++ "." ++ elemStr e) p

/-- Model of `HuggingfaceDataset.run`: wrap the loader's output.  The loader
`datasets.load_dataset` is the explicit deterministic parameter `load`. -/
def HuggingfaceDataset.run (load : String → List (String × List JsonValue))
    (dataset_name : String) : AllenNlpDataset JsonValue :=
  { splits := load dataset_name, vocab := none, metadata := [("source", "huggingface")] }

/-- Test for the only instance shape `TextOnlyDataset.run` accepts. -/
def JsonValue.isDict : JsonValue → Bool
  | .dict _ => true
  | _ => false

/-- The `.items()` of an instance known to be a dict. -/
def dictItems : JsonValue → List (String × JsonValue)
  | .dict kvs => kvs
  | _ => []

/-- One split of `TextOnlyDataset.run`'s comprehension: one `{"text": v}`
instance per kept (instance, field) pair, instances outer, fields inner. -/
def textOnlySplit (keep : List String) (insts : List JsonValue) : List JsonValue :=
  insts.flatMap fun inst =>
    (dictItems inst).filterMap fun kv =>
      if kv.1 ∈ keep then some (.dict [("text", kv.2)]) else none

/-- The dataset `dataclasses.replace(input, splits=...)` builds in
`TextOnlyDataset.run`: new splits, all other fields taken from `input`. -/
def TextOnlyDataset.core (input : AllenNlpDataset JsonValue) (keep : List String) :
    AllenNlpDataset JsonValue :=
  { input with splits := input.splits.map fun p => (p.1, textOnlySplit keep p.2) }

/-- Model of `TextOnlyDataset.run`.  `instance.items()` raises
`AttributeError` when some instance is not a dict; otherwise the call is the
pure computation `TextOnlyDataset.core`. -/
def TextOnlyDataset.run (input : AllenNlpDataset JsonValue) (keep : List String) :
    Except StepError (AllenNlpDataset JsonValue) :=
  if input.splits.all fun p => p.2.all JsonValue.isDict
  then .ok (TextOnlyDataset.core input keep)
  else .error .attributeError

/-- The call leaves the caller's dataset untouched: `dataclasses.replace`
builds a fresh dataclass and the comprehensions build fresh dicts, so the
post-call input (second component) is the input itself. -/
def TextOnlyDataset.runEffect (input : AllenNlpDataset JsonValue) (keep : List String) :
    Except StepError (AllenNlpDataset JsonValue) × AllenNlpDataset JsonValue :=
  (TextOnlyDataset.run input keep, input)

/-- The vocabulary handling of `Tokenize.run`, with its effect on the input
made explicit.  First component: the vocabulary placed in the output (the
namespace additions applied to `copy.deepcopy(input.vocab)`, or to
`Vocabulary.empty()` when the input has none).  Second component: the
caller's `input.vocab` after the call — the deepcopy severs sharing, so the
additions never reach the original object. -/
def Tokenize.vocabEffect (tok : Tokenizer) (names : List String) :
    Option Vocabulary → Vocabulary × Option Vocabulary
  | some v =>
      (names.foldl (fun vv n => vv.add_transformer_vocab tok n) v, some v)
  | none =>
      (names.foldl (fun vv n => vv.add_transformer_vocab tok n) Vocabulary.empty, none)

/-- The string-to-field lookup `Tokenize.run` replaces strings through:
the `string_to_field` dict built over all gathered strings from the batch
encoding, accessed as a Python dict. -/
def Tokenize.stringLookup (fm : String → String → Bool) (tok : Tokenizer)
    (input : AllenNlpDataset JsonValue) (fieldsToTokenize : Option (List String))
    (addSpecial : Bool) (maxLen : Option Nat) (retSTM retOM : Bool) :
    String → Option TransformerTextField :=
  fun s =>
    let strings := gatherStrings (shouldTokenizeField fm fieldsToTokenize) input.splits
    pyDictLookup
      (stringToFieldAList strings
        (tok.batch_encode_plus strings addSpecial maxLen retSTM retOM) tok.pad_token_id) s

/-- The dataset `Tokenize.run` returns once past its assertion: every split
mapped through `replace_string_objects`, and the vocabulary with one
transformer namespace per used field name. -/
def Tokenize.core (fm : String → String → Bool) (tok : Tokenizer)
    (input : AllenNlpDataset JsonValue) (fieldsToTokenize : Option (List String))
    (addSpecial : Bool) (maxLen : Option Nat) (retSTM retOM : Bool) :
    AllenNlpDataset JsonValue :=
  let should := shouldTokenizeField fm fieldsToTokenize
  let lk := Tokenize.stringLookup fm tok input fieldsToTokenize addSpecial maxLen retSTM retOM
  { splits := input.splits.map fun p => (p.1, replaceL lk p.2)
    vocab := some (Tokenize.vocabEffect tok (gatherNames should input.splits) input.vocab).1
    metadata := [] }

/-- Model of `Tokenize.run`: `assert tokenizer.pad_token_type_id == 0` runs
before anything is built; afterwards the call is `Tokenize.core`. -/
def Tokenize.run (fm : String → String → Bool) (tok : Tokenizer)
    (input : AllenNlpDataset JsonValue) (fieldsToTokenize : Option (List String))
    (addSpecial : Bool) (maxLen : Option Nat) (retSTM retOM : Bool) :
    Except StepError (AllenNlpDataset JsonValue) :=
  if tok.pad_token_type_id = 0
  then .ok (Tokenize.core fm tok input fieldsToTokenize addSpecial maxLen retSTM retOM)
  else .error .assertionError

/-- `Tokenize.run` with its effect on the caller's input made explicit: the
splits are only read, and the vocabulary is deep-copied before mutation, so
the post-call input (second component) carries `vocabEffect`'s account of
the original vocabulary object. -/
def Tokenize.runEffect (fm : String → String → Bool) (tok : Tokenizer)
    (input : AllenNlpDataset JsonValue) (fieldsToTokenize : Option (List String))
    (addSpecial : Bool) (maxLen : Option Nat) (retSTM retOM : Bool) :
    Except StepError (AllenNlpDataset JsonValue) × AllenNlpDataset JsonValue :=
  (Tokenize.run fm tok input fieldsToTokenize addSpecial maxLen retSTM retOM,
   { input with
      vocab :=
        (Tokenize.vocabEffect tok
          (gatherNames (shouldTokenizeField fm fieldsToTokenize) input.splits)
          input.vocab).2 })

/-- One row of the external `piqa` dataset, with the fields this code
reads: two solutions for one goal and an integer label. -/
structure PiqaRow where
  goal : String
  sol1 : String
  sol2 : String
  label : Int
deriving DecidableEq

/-- One entry of the intermediate `dataset` dict in `PiqaInstances.run`. -/
structure PiqaMid where
  correct_alternative : Int
  alternatives : List (String × String)
deriving DecidableEq

/-- The `alternatives` list built for one source row. -/
def piqaAlternatives (r : PiqaRow) : List (String × String) :=
  [(r.goal, r.sol1), (r.goal, r.sol2)]

/-- The intermediate per-split instance list of `PiqaInstances.run`. -/
def piqaMid (rows : List PiqaRow) : List PiqaMid :=
  rows.map fun r => ⟨r.label, piqaAlternatives r⟩

/-- `batch_encode_plus` over sentence pairs, ids and type ids only. -/
structure BatchPairs where
  input_ids : List (List Int)
  token_type_ids : List (List Int)

/-- Without padding, the pair batch encoding is the per-pair encodings in
input order. -/
def batchEncodePairs (tok : Tokenizer) (maxLen : Nat) (pairs : List (String × String)) :
    BatchPairs :=
  { input_ids := pairs.map fun p => (tok.encodePair maxLen p).input_ids
    token_type_ids := pairs.map fun p => (tok.encodePair maxLen p).token_type_ids }

/-- The text field `PiqaInstances.run` builds for one alternative. -/
def piqaPairField (tok : Tokenizer) (maxLen : Nat) (p : String × String) :
    TransformerTextField :=
  { input_ids := (tok.encodePair maxLen p).input_ids
    token_type_ids := (tok.encodePair maxLen p).token_type_ids }

/-- The `alternatives` `ListField` expected for one source row: the
encodings of `(goal, sol1)` and `(goal, sol2)`, in that order. -/
def piqaExpectedAlts (tok : Tokenizer) (maxLen : Nat) (r : PiqaRow) : Field :=
  .listF [.ttf (piqaPairField tok maxLen (r.goal, r.sol1)),
          .ttf (piqaPairField tok maxLen (r.goal, r.sol2))]

/-- The instance expected for one source row: always the alternatives, plus
a `correct_alternative` `IndexField` exactly when the label is >= 0. -/
def piqaExpectedInstance (tok : Tokenizer) (maxLen : Nat) (r : PiqaRow) : Instance :=
  let alts := piqaExpectedAlts tok maxLen r
  ⟨if r.label ≥ 0
   then [("alternatives", alts), ("correct_alternative", .indexF r.label alts)]
   else [("alternatives", alts)]⟩

/-- One output split of `PiqaInstances.run`, as the source builds it: the
split's batch encoding indexed at `2*i` and `2*i + 1` for instance `i`. -/
def piqaOutputSplit (tok : Tokenizer) (maxLen : Nat) (rows : List PiqaRow) : List Instance :=
  let mid := piqaMid rows
  let enc := batchEncodePairs tok maxLen (mid.flatMap PiqaMid.alternatives)
  mapWithIndexFrom
    (fun i inst =>
      let alts : Field := .listF
        [.ttf { input_ids := enc.input_ids.getD (2 * i) []
                token_type_ids := enc.token_type_ids.getD (2 * i) [] },
         .ttf { input_ids := enc.input_ids.getD (2 * i + 1) []
                token_type_ids := enc.token_type_ids.getD (2 * i + 1) [] }]
      Instance.mk
        (if inst.correct_alternative ≥ 0
         then [("alternatives", alts), ("correct_alternative", .indexF inst.correct_alternative alts)]
         else [("alternatives", alts)]))
    0 mid

/-- The dataset `PiqaInstances.run` returns once past its assertion.  The
external `datasets.load_dataset("piqa")` result is the parameter `piqa`. -/
def PiqaInstances.core (tok : Tokenizer) (piqa : List (String × List PiqaRow))
    (maxLen : Nat) : AllenNlpDataset Instance :=
  { splits := piqa.map fun p => (p.1, piqaOutputSplit tok maxLen p.2)
    vocab := some (Vocabulary.empty.add_transformer_vocab tok "tokens")
    metadata := [] }

/-- Model of `PiqaInstances.run`: `assert tokenizer.pad_token_type_id == 0`
first, then the pure computation `PiqaInstances.core`. -/
def PiqaInstances.run (tok : Tokenizer) (piqa : List (String × List PiqaRow))
    (maxLen : Nat) : Except StepError (AllenNlpDataset Instance) :=
  if tok.pad_token_type_id = 0
  then .ok (PiqaInstances.core tok piqa maxLen)
  else .error .assertionError

mutual
/-- Structure matching between an input value and an output value of
`replace_string_objects`: strings stay or become fields, other leaves stay,
lists stay lists, `Dataset`s become lists, dicts keep their keys, all
pointwise and in order. -/
inductive SameShape : JsonValue → JsonValue → Prop where
  | strSame (s : String) : SameShape (.str s) (.str s)
  | strReplaced (s : String) (f : TransformerTextField) : SameShape (.str s) (.field f)
  | numSame (n : Int) : SameShape (.num n) (.num n)
  | fieldSame (f : TransformerTextField) : SameShape (.field f) (.field f)
  | listSame (xs ys : List JsonValue) : SameShapeL xs ys → SameShape (.list xs) (.list ys)
  | dsetToList (xs ys : List JsonValue) : SameShapeL xs ys → SameShape (.dset xs) (.list ys)
  | dictSame (kvs kws : List (String × JsonValue)) :
      SameShapeKV kvs kws → SameShape (.dict kvs) (.dict kws)
/-- Pointwise `SameShape` on lists: same length, same order. -/
inductive SameShapeL : List JsonValue → List JsonValue → Prop where
  | nil : SameShapeL [] []
  | cons (x y : JsonValue) (xs ys : List JsonValue) :
      SameShape x y → SameShapeL xs ys → SameShapeL (x :: xs) (y :: ys)
/-- Pointwise `SameShape` on dict entries: same keys, same order. -/
inductive SameShapeKV : List (String × JsonValue) → List (String × JsonValue) → Prop where
  | nil : SameShapeKV [] []
  | cons (k : String) (v w : JsonValue) (kvs kws : List (String × JsonValue)) :
      SameShape v w → SameShapeKV kvs kws → SameShapeKV ((k, v) :: kvs) ((k, w) :: kws)
end

/-- A concrete tokenizer with the required `pad_token_type_id == 0`, used to
instantiate theorems on closed inputs. -/
def sampleTokenizer : Tokenizer :=
  { encode := fun addSpecial maxLen s =>
      { input_ids := [Int.ofNat s.length, if addSpecial then 1 else 0, Int.ofNat (maxLen.getD 0)]
        token_type_ids := [0, 0, 0]
        special_tokens_mask := [1, 0, 1]
        offset_mapping := [(0, Int.ofNat s.length)] }
    encodePair := fun maxLen p =>
      { input_ids := [Int.ofNat p.1.length, Int.ofNat p.2.length, Int.ofNat maxLen]
        token_type_ids := [0, 1, 1] }
    pad_token_id := 7
    pad_token_type_id := 0
    vocabTokens := ["[PAD]", "a"] }

/-- A tokenizer violating the asserted configuration. -/
def badTokenizer : Tokenizer :=
  { sampleTokenizer with pad_token_type_id := 1 }

/-- Concrete model of `re.fullmatch` restricted to the patterns the closed
inputs use: a pattern without metacharacters fullmatches exactly itself. -/
def sampleFullmatch (r n : String) : Bool := r == n

/-- A concrete instance: two fields holding the same string, one non-string
leaf. -/
def sampleInstance : JsonValue :=
  .dict [("a", .str "x"), ("b", .str "x"), ("c", .num 3)]

/-- A concrete dataset around `sampleInstance`. -/
def sampleInput : AllenNlpDataset JsonValue :=
  { splits := [("train", [sampleInstance])], vocab := none }

/-- A concrete instance whose field `d` holds a string that appears nowhere
else. -/
def sampleInstance2 : JsonValue :=
  .dict [("a", .str "x"), ("d", .str "y")]

/-- A concrete dataset around `sampleInstance2`. -/
def sampleInput2 : AllenNlpDataset JsonValue :=
  { splits := [("train", [sampleInstance2])], vocab := none }

/-- A concrete stand-in for `datasets.load_dataset`. -/
def sampleLoader (name : String) : List (String × List JsonValue) :=
  [("train", [.dict [("goal", .str name)]])]

/-- Two concrete PIQA rows: one labelled, one with the sentinel label -1. -/
def sampleRows : List PiqaRow :=
  [⟨"g", "s1", "s2", 0⟩, ⟨"h", "t1", "t2", -1⟩]

/-- A concrete stand-in for `datasets.load_dataset("piqa")`. -/
def samplePiqa : List (String × List PiqaRow) :=
  [("train", sampleRows)]

/-- The list part of `replace_string_objects` is a `List.map`. -/
theorem replaceL_eq_map (lk : String → Option TransformerTextField) :
    ∀ xs : List JsonValue, replaceL lk xs = xs.map (replaceV lk)
  | [] => rfl
  | x :: xs => by rw [replaceL, List.map_cons, replaceL_eq_map lk xs]

/-- The dict part of `replace_string_objects` keeps every key and maps the
value; hence looking a key up afterwards finds the mapped value. -/
theorem alookupFirst_replaceKV (lk : String → Option TransformerTextField) :
    ∀ (kvs : List (String × JsonValue)) (k : String),
      alookupFirst (replaceKV lk kvs) k = (alookupFirst kvs k).map (replaceV lk)
  | [], _ => rfl
  | kv :: kvs, k => by
      rw [replaceKV]
      by_cases h : kv.1 = k
      · simp [alookupFirst, h]
      · simp only [alookupFirst, h, if_false]
        exact alookupFirst_replaceKV lk kvs k

/-- A failed association lookup means the key is absent. -/
theorem alookupFirst_eq_none {α : Type} :
    ∀ (l : List (String × α)) (k : String), k ∉ l.map Prod.fst → alookupFirst l k = none
  | [], _, _ => rfl
  | kv :: l, k, h => by
      have h1 : ¬kv.1 = k := by
        intro e
        exact h (by simp [e])
      simp only [alookupFirst, h1, if_false]
      exact alookupFirst_eq_none l k (by
        intro hm
        exact h (by simp [hm]))

/-- When every entry of an association list determines its value from its
key by `F`, any present key looks up to `F` of it. -/
theorem alookupFirst_of_forall {α : Type} (F : String → α) :
    ∀ (l : List (String × α)) (k : String), (∀ p ∈ l, p.2 = F p.1) →
      k ∈ l.map Prod.fst → alookupFirst l k = some (F k)
  | [], _, _, hk => by simp at hk
  | kv :: l, k, hall, hk => by
      by_cases h : kv.1 = k
      · have hv : kv.2 = F kv.1 := hall kv (by simp)
        rw [alookupFirst, if_pos h, hv, h]
      · simp only [alookupFirst, h, if_false]
        refine alookupFirst_of_forall F l k (fun p hp => hall p (by simp [hp])) ?_
        have hk2 : k = kv.1 ∨ k ∈ l.map Prod.fst := by simpa using hk
        rcases hk2 with h1 | h1
        · exact absurd h1.symm h
        · exact h1

/-- Python-dict lookup (later entry wins) under the hypotheses of
`alookupFirst_of_forall`. -/
theorem pyDictLookup_of_forall {α : Type} (F : String → α) (l : List (String × α))
    (k : String) (hall : ∀ p ∈ l, p.2 = F p.1) (hk : k ∈ l.map Prod.fst) :
    pyDictLookup l k = some (F k) := by
  refine alookupFirst_of_forall F l.reverse k (fun p hp => hall p (by simpa using hp)) ?_
  simpa using hk

/-- Indexing into `mapWithIndexFrom`. -/
theorem mapWithIndexFrom_getElem? {α β : Type} (f : Nat → α → β) :
    ∀ (l : List α) (j i : Nat), (mapWithIndexFrom f j l)[i]? = l[i]?.map (f (j + i))
  | [], _, _ => by simp [mapWithIndexFrom]
  | x :: l, j, 0 => by simp [mapWithIndexFrom]
  | x :: l, j, i + 1 => by
      have ih := mapWithIndexFrom_getElem? f l (j + 1) i
      have e : j + 1 + i = j + (i + 1) := by omega
      simpa [mapWithIndexFrom, e] using ih

/-- Membership in `mapWithIndexFrom` comes from some index. -/
theorem mem_mapWithIndexFrom {α β : Type} (f : Nat → α → β) :
    ∀ (l : List α) (j : Nat) (b : β), b ∈ mapWithIndexFrom f j l →
      ∃ i x, l[i]? = some x ∧ b = f (j + i) x
  | [], _, _, h => by simp [mapWithIndexFrom] at h
  | x :: l, j, b, h => by
      rcases (by simpa [mapWithIndexFrom] using h) with h1 | h1
      · exact ⟨0, x, by simp, by simpa using h1⟩
      · rcases mem_mapWithIndexFrom f l (j + 1) b h1 with ⟨i, y, hy, hb⟩
        exact ⟨i + 1, y, by simpa using hy, by rw [hb]; congr 1; omega⟩

/-- The keys of the `string_to_field` association list are exactly the
gathered strings, in order. -/
theorem stringToFieldAList_keys (enc : BatchEncoding) (padId : Int) :
    ∀ (strings : List String) (j : Nat),
      (mapWithIndexFrom (fun i s => (s, fieldFromBatch enc padId i)) j strings).map Prod.fst
        = strings
  | [], _ => rfl
  | s :: strings, j => by
      rw [mapWithIndexFrom, List.map_cons, stringToFieldAList_keys enc padId strings (j + 1)]

/-- Every entry of the `string_to_field` association list maps its key
string to the field built from that string's own encoding: the batch
encoding lists are the per-string encodings, index-aligned with `strings`. -/
theorem stringToFieldAList_entry (tok : Tokenizer) (addSpecial : Bool) (maxLen : Option Nat)
    (retSTM retOM : Bool) (strings : List String) (p : String × TransformerTextField)
    (hp : p ∈ stringToFieldAList strings
            (tok.batch_encode_plus strings addSpecial maxLen retSTM retOM) tok.pad_token_id) :
    p.2 = mkStringField tok addSpecial maxLen retSTM retOM p.1 := by
  rcases mem_mapWithIndexFrom _ strings 0 p hp with ⟨i, x, hx, hb⟩
  subst hb
  cases retSTM <;> cases retOM <;>
    simp [fieldFromBatch, mkStringField, Tokenizer.batch_encode_plus,
      List.getD_eq_getElem?_getD, List.getElem?_map, hx, Nat.zero_add]

/-- A gathered string looks up to the field built from its own encoding. -/
theorem stringLookup_mem (fm : String → String → Bool) (tok : Tokenizer)
    (input : AllenNlpDataset JsonValue) (fields : Option (List String))
    (aS : Bool) (mL : Option Nat) (stm om : Bool) (s : String)
    (hs : s ∈ gatherStrings (shouldTokenizeField fm fields) input.splits) :
    Tokenize.stringLookup fm tok input fields aS mL stm om s
      = some (mkStringField tok aS mL stm om s) := by
  simp only [Tokenize.stringLookup]
  refine pyDictLookup_of_forall (mkStringField tok aS mL stm om) _ s
    (fun p hp => stringToFieldAList_entry tok aS mL stm om _ p hp) ?_
  rw [show (stringToFieldAList (gatherStrings (shouldTokenizeField fm fields) input.splits)
        (tok.batch_encode_plus (gatherStrings (shouldTokenizeField fm fields) input.splits)
          aS mL stm om) tok.pad_token_id).map Prod.fst
      = gatherStrings (shouldTokenizeField fm fields) input.splits
    from stringToFieldAList_keys _ _ _ 0]
  exact hs

/-- A string that was not gathered is absent from `string_to_field`. -/
theorem stringLookup_not_mem (fm : String → String → Bool) (tok : Tokenizer)
    (input : AllenNlpDataset JsonValue) (fields : Option (List String))
    (aS : Bool) (mL : Option Nat) (stm om : Bool) (s : String)
    (hs : s ∉ gatherStrings (shouldTokenizeField fm fields) input.splits) :
    Tokenize.stringLookup fm tok input fields aS mL stm om s = none := by
  simp only [Tokenize.stringLookup, pyDictLookup]
  apply alookupFirst_eq_none
  rw [List.map_reverse,
    show (stringToFieldAList (gatherStrings (shouldTokenizeField fm fields) input.splits)
        (tok.batch_encode_plus (gatherStrings (shouldTokenizeField fm fields) input.splits)
          aS mL stm om) tok.pad_token_id).map Prod.fst
      = gatherStrings (shouldTokenizeField fm fields) input.splits
    from stringToFieldAList_keys _ _ _ 0]
  simpa using hs

/-- A string found by `find_string_objects` inside some instance of some
split ends up in the gathered `strings` list. -/
theorem mem_gatherStrings (should : String → Bool) (splits : List (String × List JsonValue))
    (name : String) (insts : List JsonValue) (inst : JsonValue) (pathS s : String)
    (hsplit : (name, insts) ∈ splits) (hinst : inst ∈ insts)
    (hfind : (pathS, s) ∈ findStrV should "" inst) :
    s ∈ gatherStrings should splits := by
  unfold gatherStrings
  refine List.mem_flatMap.mpr ⟨(name, insts), hsplit, ?_⟩
  refine List.mem_flatMap.mpr ⟨inst, hinst, ?_⟩
  exact List.mem_map.mpr ⟨(pathS, s), hfind, rfl⟩

/-- Entries found under the element at index `i` of a list appear in the
list traversal of `find_string_objects`, whose enumeration starts at `j`. -/
theorem findStrL_mem (should : String → Bool) (pre : String) (e : String × String) :
    ∀ (xs : List JsonValue) (j i : Nat) (x : JsonValue), xs[i]? = some x →
      e ∈ findStrV should (pre ++ "." ++ toString (j + i)) x →
      e ∈ findStrL should pre j xs
  | [], _, i, _, hx, _ => by simp at hx
  | y :: xs, j, 0, x, hx, he => by
      have hy : y = x := by simpa using hx
      subst hy
      rw [findStrL]
      exact List.mem_append.mpr (Or.inl (by simpa using he))
  | y :: xs, j, i + 1, x, hx, he => by
      rw [findStrL]
      refine List.mem_append.mpr (Or.inr ?_)
      refine findStrL_mem should pre e xs (j + 1) i x (by simpa using hx) ?_
      have harith : j + 1 + i = j + (i + 1) := by omega
      rw [harith]
      exact he

/-- Entries found under the value at key `k` of a dict appear in the dict
traversal of `find_string_objects`. -/
theorem findStrKV_mem (should : String → Bool) (pre : String) (e : String × String) :
    ∀ (kvs : List (String × JsonValue)) (k : String) (v : JsonValue),
      alookupFirst kvs k = some v → e ∈ findStrV should (pre ++ "." ++ k) v →
      e ∈ findStrKV should pre kvs
  | [], _, _, hv, _ => by simp [alookupFirst] at hv
  | kv :: kvs, k, v, hv, he => by
      rw [findStrKV]
      by_cases h : kv.1 = k
      · have hv2 : kv.2 = v := by
          have := hv
          rw [alookupFirst, if_pos h] at this
          simpa using this
        refine List.mem_append.mpr (Or.inl ?_)
        rw [h, hv2]
        exact he
      · have hv2 : alookupFirst kvs k = some v := by
          have := hv
          rwa [alookupFirst, if_neg h] at this
        exact List.mem_append.mpr (Or.inr (findStrKV_mem should pre e kvs k v hv2 he))

/-- A string sitting at path `p` (through lists and dicts) whose computed
prefix string passes the filter is found by `find_string_objects`. -/
theorem getPath_mem_findStrV (should : String → Bool) :
    ∀ (p : List PathElem) (o : JsonValue) (pre : String) (s : String),
      getPath o p = some (.str s) → should (pathStrFrom pre p) = true →
      (pathStrFrom pre p, s) ∈ findStrV should pre o
  | [], o, pre, s, hg, hs => by
      have ho : o = .str s := by simpa [getPath] using hg
      subst ho
      rw [pathStrFrom] at hs ⊢
      rw [findStrV]
      simp [hs]
  | .idx i :: p, o, pre, s, hg, hs => by
      cases o <;> simp only [getPath] at hg <;> try exact absurd hg (by simp)
      case list xs =>
        cases hx : xs[i]? with
        | none => rw [hx] at hg; exact absurd hg (by simp)
        | some x =>
            rw [hx] at hg
            rw [findStrV]
            refine findStrL_mem should (stripDots pre) _ xs 0 i x hx ?_
            rw [Nat.zero_add]
            rw [pathStrFrom] at hs ⊢
            exact getPath_mem_findStrV should p x (stripDots pre ++ "." ++ elemStr (.idx i)) s hg hs
  | .key k :: p, o, pre, s, hg, hs => by
      cases o <;> simp only [getPath] at hg <;> try exact absurd hg (by simp)
      case dict kvs =>
        cases hv : alookupFirst kvs k with
        | none => rw [hv] at hg; exact absurd hg (by simp)
        | some v =>
            rw [hv] at hg
            rw [findStrV]
            refine findStrKV_mem should (stripDots pre) _ kvs k v hv ?_
            rw [pathStrFrom] at hs ⊢
            exact getPath_mem_findStrV should p v (stripDots pre ++ "." ++ elemStr (.key k)) s hg hs

/-- What `replace_string_objects` leaves at the position of a string: the
field when the lookup succeeds, the string itself otherwise. -/
theorem getPath_replaceV (lk : String → Option TransformerTextField) :
    ∀ (p : List PathElem) (o : JsonValue) (s : String),
      getPath o p = some (.str s) →
      getPath (replaceV lk o) p =
        some (match lk s with | some f => .field f | none => .str s)
  | [], o, s, hg => by
      have ho : o = .str s := by simpa [getPath] using hg
      subst ho
      rw [replaceV]
      cases lk s <;> rfl
  | .idx i :: p, o, s, hg => by
      cases o <;> simp only [getPath] at hg <;> try exact absurd hg (by simp)
      case list xs =>
        cases hx : xs[i]? with
        | none => rw [hx] at hg; exact absurd hg (by simp)
        | some x =>
            rw [hx] at hg
            rw [replaceV, replaceL_eq_map]
            simp only [getPath, List.getElem?_map, hx, Option.map_some]
            exact getPath_replaceV lk p x s hg
  | .key k :: p, o, s, hg => by
      cases o <;> simp only [getPath] at hg <;> try exact absurd hg (by simp)
      case dict kvs =>
        cases hv : alookupFirst kvs k with
        | none => rw [hv] at hg; exact absurd hg (by simp)
        | some v =>
            rw [hv] at hg
            rw [replaceV]
            simp only [getPath, alookupFirst_replaceKV, hv, Option.map_some]
            exact getPath_replaceV lk p v s hg

mutual
/-- `replace_string_objects` preserves the structure of any value. -/
theorem sameShape_replaceV (lk : String → Option TransformerTextField) :
    ∀ o : JsonValue, SameShape o (replaceV lk o)
  | .str s => by
      rw [replaceV]
      cases lk s
      · exact .strSame s
      · exact .strReplaced s _
  | .num n => by rw [replaceV]; exact .numSame n
  | .field f => by rw [replaceV]; exact .fieldSame f
  | .list xs => by rw [replaceV]; exact .listSame xs _ (sameShapeL_replaceL lk xs)
  | .dset xs => by rw [replaceV]; exact .dsetToList xs _ (sameShapeL_replaceL lk xs)
  | .dict kvs => by rw [replaceV]; exact .dictSame kvs _ (sameShapeKV_replaceKV lk kvs)
/-- List version of `sameShape_replaceV`. -/
theorem sameShapeL_replaceL (lk : String → Option TransformerTextField) :
    ∀ xs : List JsonValue, SameShapeL xs (replaceL lk xs)
  | [] => by rw [replaceL]; exact .nil
  | x :: xs => by
      rw [replaceL]
      exact .cons x _ xs _ (sameShape_replaceV lk x) (sameShapeL_replaceL lk xs)
/-- Dict version of `sameShape_replaceV`. -/
theorem sameShapeKV_replaceKV (lk : String → Option TransformerTextField) :
    ∀ kvs : List (String × JsonValue), SameShapeKV kvs (replaceKV lk kvs)
  | [] => by rw [replaceKV]; exact .nil
  | kv :: kvs => by
      rw [replaceKV]
      exact .cons kv.1 kv.2 _ kvs _ (sameShape_replaceV lk kv.2) (sameShapeKV_replaceKV lk kvs)
end

/-- The `{"text": v}` comprehension of one `TextOnlyDataset` instance:
filter the kept fields, then wrap each value. -/
theorem filterMap_keep_eq (keep : List String) :
    ∀ kvs : List (String × JsonValue),
      (kvs.filterMap fun kv =>
        if kv.1 ∈ keep then some (JsonValue.dict [("text", kv.2)]) else none)
      = (kvs.filter fun kv => decide (kv.1 ∈ keep)).map fun kv => .dict [("text", kv.2)]
  | [] => rfl
  | kv :: kvs => by
      by_cases h : kv.1 ∈ keep <;>
        simp [List.filterMap_cons, List.filter_cons, h, filterMap_keep_eq keep kvs]

/-- One `TextOnlyDataset` split is the kept (instance, field) pairs, in
input order, each wrapped as a `{"text": value}` instance. -/
theorem textOnlySplit_eq (keep : List String) (insts : List JsonValue) :
    textOnlySplit keep insts
      = ((insts.flatMap fun inst => (dictItems inst).filter fun kv => decide (kv.1 ∈ keep)).map
          fun kv => .dict [("text", kv.2)]) := by
  unfold textOnlySplit
  rw [List.map_flatMap]
  exact List.flatMap_congr fun inst _ => filterMap_keep_eq keep (dictItems inst)

/-- Exactly the kept values appear in a `TextOnlyDataset` split. -/
theorem mem_textOnlySplit (keep : List String) (insts : List JsonValue) (v : JsonValue) :
    (JsonValue.dict [("text", v)]) ∈ textOnlySplit keep insts ↔
      ∃ inst ∈ insts, ∃ k, (k, v) ∈ dictItems inst ∧ k ∈ keep := by
  rw [textOnlySplit_eq]
  constructor
  · intro h
    rcases List.mem_map.mp h with ⟨kv, hkv, he⟩
    rcases List.mem_flatMap.mp hkv with ⟨inst, hinst, hin⟩
    rcases List.mem_filter.mp hin with ⟨hmem, hkeep⟩
    have hv : kv.2 = v := by
      have h2 := he
      simp only [JsonValue.dict.injEq, List.cons.injEq, Prod.mk.injEq] at h2
      exact h2.1.2
    exact ⟨inst, hinst, kv.1, by rw [← hv]; exact hmem, by simpa using hkeep⟩
  · rintro ⟨inst, hinst, k, hmem, hkeep⟩
    refine List.mem_map.mpr ⟨(k, v), ?_, rfl⟩
    exact List.mem_flatMap.mpr ⟨inst, hinst, List.mem_filter.mpr ⟨hmem, by simpa using hkeep⟩⟩

/-- Indexing into the flattened list of per-element pairs: entry `2*i` is
the first component for element `i`, entry `2*i + 1` the second. -/
theorem flatMap_pair_getElem? {α β : Type} (f g : α → β) :
    ∀ (l : List α) (i : Nat), i < l.length →
      ((l.flatMap fun a => [f a, g a])[2 * i]? = (l[i]?).map f ∧
       (l.flatMap fun a => [f a, g a])[2 * i + 1]? = (l[i]?).map g)
  | [], i, h => by simp at h
  | a :: l, 0, _ => by simp
  | a :: l, i + 1, h => by
      have ih := flatMap_pair_getElem? f g l i (by simpa using Nat.lt_of_succ_lt_succ h)
      have e2 : 2 * (i + 1) = 2 * i + 1 + 1 := by omega
      rw [e2]
      simpa [List.flatMap_cons] using ih

/-- The alternatives flattened for the batch call are the per-row
`(goal, sol1)`, `(goal, sol2)` pairs in row order. -/
theorem piqaMid_flat (rows : List PiqaRow) :
    (piqaMid rows).flatMap PiqaMid.alternatives
      = rows.flatMap fun r => [(r.goal, r.sol1), (r.goal, r.sol2)] := by
  unfold piqaMid
  rw [List.flatMap_map]
  rfl

/-- Entry `i` of a `PiqaInstances` output split is the expected instance
for source row `i`: the `ListField` of the encodings of `(goal, sol1)` and
`(goal, sol2)`, read off the batch encoding at `2*i` and `2*i + 1`. -/
theorem piqaOutputSplit_getElem? (tok : Tokenizer) (maxLen : Nat) (rows : List PiqaRow)
    (i : Nat) (hi : i < rows.length) :
    (piqaOutputSplit tok maxLen rows)[i]? = some (piqaExpectedInstance tok maxLen rows[i]) := by
  have hrow : rows[i]? = some rows[i] := List.getElem?_eq_getElem hi
  have hmid : (piqaMid rows)[i]? = some ⟨rows[i].label, piqaAlternatives rows[i]⟩ := by
    unfold piqaMid
    rw [List.getElem?_map, hrow]
    rfl
  have hpairs := flatMap_pair_getElem?
    (fun r : PiqaRow => (r.goal, r.sol1)) (fun r : PiqaRow => (r.goal, r.sol2)) rows i hi
  unfold piqaOutputSplit
  rw [mapWithIndexFrom_getElem?, hmid, Nat.zero_add]
  unfold piqaExpectedInstance piqaExpectedAlts piqaPairField
  simp only [Option.map_some, Option.some.injEq]
  have h1 : (batchEncodePairs tok maxLen ((piqaMid rows).flatMap PiqaMid.alternatives)).input_ids.getD (2 * i) []
      = (tok.encodePair maxLen (rows[i].goal, rows[i].sol1)).input_ids := by
    unfold batchEncodePairs
    rw [piqaMid_flat, List.getD_eq_getElem?_getD, List.getElem?_map, hpairs.1, hrow]
    rfl
  have h2 : (batchEncodePairs tok maxLen ((piqaMid rows).flatMap PiqaMid.alternatives)).token_type_ids.getD (2 * i) []
      = (tok.encodePair maxLen (rows[i].goal, rows[i].sol1)).token_type_ids := by
    unfold batchEncodePairs
    rw [piqaMid_flat, List.getD_eq_getElem?_getD, List.getElem?_map, hpairs.1, hrow]
    rfl
  have h3 : (batchEncodePairs tok maxLen ((piqaMid rows).flatMap PiqaMid.alternatives)).input_ids.getD (2 * i + 1) []
      = (tok.encodePair maxLen (rows[i].goal, rows[i].sol2)).input_ids := by
    unfold batchEncodePairs
    rw [piqaMid_flat, List.getD_eq_getElem?_getD, List.getElem?_map, hpairs.2, hrow]
    rfl
  have h4 : (batchEncodePairs tok maxLen ((piqaMid rows).flatMap PiqaMid.alternatives)).token_type_ids.getD (2 * i + 1) []
      = (tok.encodePair maxLen (rows[i].goal, rows[i].sol2)).token_type_ids := by
    unfold batchEncodePairs
    rw [piqaMid_flat, List.getD_eq_getElem?_getD, List.getElem?_map, hpairs.2, hrow]
    rfl
  rw [h1, h2, h3, h4]
  rfl

/-- Rebuilding each pair with its own first component preserves the list
of first components. -/
theorem map_fst_map_pair {α β γ : Type} (g : α × β → γ) :
    ∀ l : List (α × β), (l.map fun p => (p.1, g p)).map Prod.fst = l.map Prod.fst
  | [] => rfl
  | p :: l => by simp [map_fst_map_pair g l]

/-- C3: each of the four steps is deterministic — with the external
libraries (loader, tokenizer, regex engine) fixed as functional parameters,
identical declared inputs produce identical outputs. -/
theorem steps_deterministic :
    (∀ (load load2 : String → List (String × List JsonValue)) (n n2 : String),
      load = load2 → n = n2 →
      HuggingfaceDataset.run load n = HuggingfaceDataset.run load2 n2) ∧
    (∀ (input input2 : AllenNlpDataset JsonValue) (keep keep2 : List String),
      input = input2 → keep = keep2 →
      TextOnlyDataset.run input keep = TextOnlyDataset.run input2 keep2) ∧
    (∀ (fm fm2 : String → String → Bool) (tok tok2 : Tokenizer)
        (input input2 : AllenNlpDataset JsonValue) (fields fields2 : Option (List String))
        (aS aS2 : Bool) (mL mL2 : Option Nat) (stm stm2 om om2 : Bool),
      fm = fm2 → tok = tok2 → input = input2 → fields = fields2 → aS = aS2 → mL = mL2 →
      stm = stm2 → om = om2 →
      Tokenize.run fm tok input fields aS mL stm om
        = Tokenize.run fm2 tok2 input2 fields2 aS2 mL2 stm2 om2) ∧
    (∀ (tok tok2 : Tokenizer) (piqa piqa2 : List (String × List PiqaRow)) (maxLen maxLen2 : Nat),
      tok = tok2 → piqa = piqa2 → maxLen = maxLen2 →
      PiqaInstances.run tok piqa maxLen = PiqaInstances.run tok2 piqa2 maxLen2) := by
  refine ⟨?_, ?_, ?_, ?_⟩ <;> (intros; subst_vars; rfl)

/-- Witness for C3: each step applied twice to the same concrete inputs. -/
theorem steps_deterministic_witness :
    HuggingfaceDataset.run sampleLoader "piqa" = HuggingfaceDataset.run sampleLoader "piqa" ∧
    TextOnlyDataset.run sampleInput ["a"] = TextOnlyDataset.run sampleInput ["a"] ∧
    Tokenize.run sampleFullmatch sampleTokenizer sampleInput (some ["a"]) true (some 512) false false
      = Tokenize.run sampleFullmatch sampleTokenizer sampleInput (some ["a"]) true (some 512) false false ∧
    PiqaInstances.run sampleTokenizer samplePiqa 512
      = PiqaInstances.run sampleTokenizer samplePiqa 512 :=
  ⟨steps_deterministic.1 sampleLoader sampleLoader "piqa" "piqa" rfl rfl,
   steps_deterministic.2.1 sampleInput sampleInput ["a"] ["a"] rfl rfl,
   steps_deterministic.2.2.1 sampleFullmatch sampleFullmatch sampleTokenizer sampleTokenizer
     sampleInput sampleInput (some ["a"]) (some ["a"]) true true (some 512) (some 512)
     false false false false rfl rfl rfl rfl rfl rfl rfl rfl,
   steps_deterministic.2.2.2 sampleTokenizer sampleTokenizer samplePiqa samplePiqa 512 512
     rfl rfl rfl⟩

/-- C4: `TextOnlyDataset.run` and `Tokenize.run` leave their input dataset
unchanged — the post-call input (as tracked by the explicit-effect models,
where `dataclasses.replace` copies and the vocabulary is deep-copied before
the namespace additions) has the same splits and the same vocabulary. -/
theorem steps_do_not_mutate_input
    (input : AllenNlpDataset JsonValue) (keep : List String)
    (fm : String → String → Bool) (tok : Tokenizer) (fields : Option (List String))
    (aS : Bool) (mL : Option Nat) (stm om : Bool) :
    (TextOnlyDataset.runEffect input keep).2.splits = input.splits ∧
    (TextOnlyDataset.runEffect input keep).2.vocab = input.vocab ∧
    (Tokenize.runEffect fm tok input fields aS mL stm om).2.splits = input.splits ∧
    (Tokenize.runEffect fm tok input fields aS mL stm om).2.vocab = input.vocab := by
  refine ⟨rfl, rfl, rfl, ?_⟩
  cases h : input.vocab <;> simp [Tokenize.runEffect, Tokenize.vocabEffect, h]

/-- C5: `TextOnlyDataset.run` keeps the split names and rewrites each split
into exactly one `{"text": value}` instance per kept (instance, field)
pair, in input order; exactly the kept values appear. -/
theorem text_only_filters_fields
    (input : AllenNlpDataset JsonValue) (keep : List String)
    (hdict : input.splits.all (fun p => p.2.all JsonValue.isDict) = true) :
    TextOnlyDataset.run input keep = .ok (TextOnlyDataset.core input keep) ∧
    (TextOnlyDataset.core input keep).splits.map Prod.fst = input.splits.map Prod.fst ∧
    (∀ name insts, (name, insts) ∈ input.splits →
      (name, textOnlySplit keep insts) ∈ (TextOnlyDataset.core input keep).splits ∧
      textOnlySplit keep insts
        = ((insts.flatMap fun inst => (dictItems inst).filter fun kv => decide (kv.1 ∈ keep)).map
            fun kv => .dict [("text", kv.2)]) ∧
      (∀ v : JsonValue, (JsonValue.dict [("text", v)]) ∈ textOnlySplit keep insts ↔
        ∃ inst ∈ insts, ∃ k, (k, v) ∈ dictItems inst ∧ k ∈ keep)) := by
  refine ⟨by simp [TextOnlyDataset.run, hdict], ?_, ?_⟩
  · simp only [TextOnlyDataset.core]
    exact map_fst_map_pair _ input.splits
  · intro name insts hmem
    refine ⟨?_, textOnlySplit_eq keep insts, fun v => mem_textOnlySplit keep insts v⟩
    simp only [TextOnlyDataset.core]
    exact List.mem_map.mpr ⟨(name, insts), hmem, rfl⟩

/-- Witness for C5 at a concrete dataset of dict instances. -/
theorem text_only_filters_fields_witness :
    TextOnlyDataset.run sampleInput ["a"] = .ok (TextOnlyDataset.core sampleInput ["a"]) ∧
    (TextOnlyDataset.core sampleInput ["a"]).splits.map Prod.fst
      = sampleInput.splits.map Prod.fst ∧
    (∀ name insts, (name, insts) ∈ sampleInput.splits →
      (name, textOnlySplit ["a"] insts) ∈ (TextOnlyDataset.core sampleInput ["a"]).splits ∧
      textOnlySplit ["a"] insts
        = ((insts.flatMap fun inst => (dictItems inst).filter fun kv => decide (kv.1 ∈ ["a"])).map
            fun kv => .dict [("text", kv.2)]) ∧
      (∀ v : JsonValue, (JsonValue.dict [("text", v)]) ∈ textOnlySplit ["a"] insts ↔
        ∃ inst ∈ insts, ∃ k, (k, v) ∈ dictItems inst ∧ k ∈ ["a"])) :=
  text_only_filters_fields sampleInput ["a"] (by decide)

/-- C7: both tokenizer-using steps raise the `AssertionError` (and return
no dataset) exactly when the loaded tokenizer has a nonzero
`pad_token_type_id`; with a zero one the assertion passes and each run
returns its dataset. -/
theorem pad_token_type_assertion
    (fm : String → String → Bool) (tok : Tokenizer) (input : AllenNlpDataset JsonValue)
    (fields : Option (List String)) (aS : Bool) (mL : Option Nat) (stm om : Bool)
    (piqa : List (String × List PiqaRow)) (maxLen : Nat) :
    (tok.pad_token_type_id ≠ 0 →
      Tokenize.run fm tok input fields aS mL stm om = .error .assertionError ∧
      PiqaInstances.run tok piqa maxLen = .error .assertionError) ∧
    (tok.pad_token_type_id = 0 →
      Tokenize.run fm tok input fields aS mL stm om
          = .ok (Tokenize.core fm tok input fields aS mL stm om) ∧
      PiqaInstances.run tok piqa maxLen = .ok (PiqaInstances.core tok piqa maxLen)) := by
  constructor
  · intro h
    exact ⟨by simp [Tokenize.run, h], by simp [PiqaInstances.run, h]⟩
  · intro h
    exact ⟨by simp [Tokenize.run, h], by simp [PiqaInstances.run, h]⟩

/-- Witness for C7: a violating and a conforming concrete tokenizer. -/
theorem pad_token_type_assertion_witness :
    (Tokenize.run sampleFullmatch badTokenizer sampleInput (some ["a"]) true (some 512) false false
        = .error .assertionError ∧
     PiqaInstances.run badTokenizer samplePiqa 512 = .error .assertionError) ∧
    (Tokenize.run sampleFullmatch sampleTokenizer sampleInput (some ["a"]) true (some 512) false false
        = .ok (Tokenize.core sampleFullmatch sampleTokenizer sampleInput (some ["a"]) true
            (some 512) false false) ∧
     PiqaInstances.run sampleTokenizer samplePiqa 512
        = .ok (PiqaInstances.core sampleTokenizer samplePiqa 512)) :=
  ⟨(pad_token_type_assertion sampleFullmatch badTokenizer sampleInput (some ["a"]) true (some 512)
      false false samplePiqa 512).1 (by decide),
   (pad_token_type_assertion sampleFullmatch sampleTokenizer sampleInput (some ["a"]) true (some 512)
      false false samplePiqa 512).2 rfl⟩

/-- C1: for every split and every source row at position `i`, the output
instance's `alternatives` `ListField` holds exactly two
`TransformerTextField`s, built in order from entries `2*i` and `2*i + 1` of
that split's batch encoding, and those entries are the encodings of the
pairs `(goal, sol1)` and `(goal, sol2)` of that same source row. -/
theorem piqa_alternatives_bookkeeping
    (tok : Tokenizer) (piqa : List (String × List PiqaRow)) (maxLen : Nat)
    (name : String) (rows : List PiqaRow) (i : Nat)
    (hpad : tok.pad_token_type_id = 0)
    (hsplit : (name, rows) ∈ piqa) (hi : i < rows.length) :
    PiqaInstances.run tok piqa maxLen = .ok (PiqaInstances.core tok piqa maxLen) ∧
    (name, piqaOutputSplit tok maxLen rows) ∈ (PiqaInstances.core tok piqa maxLen).splits ∧
    ((piqaOutputSplit tok maxLen rows)[i]?.bind fun inst =>
        alookupFirst inst.fields "alternatives")
      = some (Field.listF
          [.ttf (piqaPairField tok maxLen (rows[i].goal, rows[i].sol1)),
           .ttf (piqaPairField tok maxLen (rows[i].goal, rows[i].sol2))]) ∧
    (batchEncodePairs tok maxLen ((piqaMid rows).flatMap PiqaMid.alternatives)).input_ids[2 * i]?
      = some (tok.encodePair maxLen (rows[i].goal, rows[i].sol1)).input_ids ∧
    (batchEncodePairs tok maxLen ((piqaMid rows).flatMap PiqaMid.alternatives)).token_type_ids[2 * i]?
      = some (tok.encodePair maxLen (rows[i].goal, rows[i].sol1)).token_type_ids ∧
    (batchEncodePairs tok maxLen ((piqaMid rows).flatMap PiqaMid.alternatives)).input_ids[2 * i + 1]?
      = some (tok.encodePair maxLen (rows[i].goal, rows[i].sol2)).input_ids ∧
    (batchEncodePairs tok maxLen ((piqaMid rows).flatMap PiqaMid.alternatives)).token_type_ids[2 * i + 1]?
      = some (tok.encodePair maxLen (rows[i].goal, rows[i].sol2)).token_type_ids := by
  have hrow : rows[i]? = some rows[i] := List.getElem?_eq_getElem hi
  have hpairs := flatMap_pair_getElem?
    (fun r : PiqaRow => (r.goal, r.sol1)) (fun r : PiqaRow => (r.goal, r.sol2)) rows i hi
  refine ⟨by simp [PiqaInstances.run, hpad], ?_, ?_, ?_, ?_, ?_, ?_⟩
  · simp only [PiqaInstances.core]
    exact List.mem_map.mpr ⟨(name, rows), hsplit, rfl⟩
  · rw [piqaOutputSplit_getElem? tok maxLen rows i hi]
    by_cases h : rows[i].label ≥ 0 <;>
      simp [piqaExpectedInstance, piqaExpectedAlts, alookupFirst, h]
  · unfold batchEncodePairs
    rw [piqaMid_flat, List.getElem?_map, hpairs.1, hrow]
    rfl
  · unfold batchEncodePairs
    rw [piqaMid_flat, List.getElem?_map, hpairs.1, hrow]
    rfl
  · unfold batchEncodePairs
    rw [piqaMid_flat, List.getElem?_map, hpairs.2, hrow]
    rfl
  · unfold batchEncodePairs
    rw [piqaMid_flat, List.getElem?_map, hpairs.2, hrow]
    rfl

/-- Witness for C1 at a concrete tokenizer and PIQA dataset. -/
theorem piqa_alternatives_bookkeeping_witness :
    PiqaInstances.run sampleTokenizer samplePiqa 512
        = .ok (PiqaInstances.core sampleTokenizer samplePiqa 512) ∧
    ("train", piqaOutputSplit sampleTokenizer 512 sampleRows)
        ∈ (PiqaInstances.core sampleTokenizer samplePiqa 512).splits ∧
    ((piqaOutputSplit sampleTokenizer 512 sampleRows)[0]?.bind fun inst =>
        alookupFirst inst.fields "alternatives")
      = some (Field.listF
          [.ttf (piqaPairField sampleTokenizer 512 ("g", "s1")),
           .ttf (piqaPairField sampleTokenizer 512 ("g", "s2"))]) ∧
    (batchEncodePairs sampleTokenizer 512 ((piqaMid sampleRows).flatMap PiqaMid.alternatives)).input_ids[0]?
      = some (sampleTokenizer.encodePair 512 ("g", "s1")).input_ids ∧
    (batchEncodePairs sampleTokenizer 512 ((piqaMid sampleRows).flatMap PiqaMid.alternatives)).token_type_ids[0]?
      = some (sampleTokenizer.encodePair 512 ("g", "s1")).token_type_ids ∧
    (batchEncodePairs sampleTokenizer 512 ((piqaMid sampleRows).flatMap PiqaMid.alternatives)).input_ids[1]?
      = some (sampleTokenizer.encodePair 512 ("g", "s2")).input_ids ∧
    (batchEncodePairs sampleTokenizer 512 ((piqaMid sampleRows).flatMap PiqaMid.alternatives)).token_type_ids[1]?
      = some (sampleTokenizer.encodePair 512 ("g", "s2")).token_type_ids :=
  piqa_alternatives_bookkeeping sampleTokenizer samplePiqa 512 "train" sampleRows 0
    rfl (by simp [samplePiqa]) (by decide)

/-- C10: the returned instance contains a `correct_alternative`
`IndexField` iff the source label is nonnegative; with a negative label the
instance holds only the `alternatives` field. -/
theorem piqa_conditional_label_field
    (tok : Tokenizer) (piqa : List (String × List PiqaRow)) (maxLen : Nat)
    (name : String) (rows : List PiqaRow) (i : Nat)
    (hpad : tok.pad_token_type_id = 0)
    (hsplit : (name, rows) ∈ piqa) (hi : i < rows.length) :
    PiqaInstances.run tok piqa maxLen = .ok (PiqaInstances.core tok piqa maxLen) ∧
    (name, piqaOutputSplit tok maxLen rows) ∈ (PiqaInstances.core tok piqa maxLen).splits ∧
    (piqaOutputSplit tok maxLen rows)[i]? = some (piqaExpectedInstance tok maxLen rows[i]) ∧
    ((alookupFirst (piqaExpectedInstance tok maxLen rows[i]).fields "correct_alternative").isSome
        ↔ rows[i].label ≥ 0) ∧
    (rows[i].label ≥ 0 →
      alookupFirst (piqaExpectedInstance tok maxLen rows[i]).fields "correct_alternative"
        = some (.indexF rows[i].label (piqaExpectedAlts tok maxLen rows[i]))) ∧
    (rows[i].label < 0 →
      (piqaExpectedInstance tok maxLen rows[i]).fields
        = [("alternatives", piqaExpectedAlts tok maxLen rows[i])]) := by
  refine ⟨by simp [PiqaInstances.run, hpad], ?_,
    piqaOutputSplit_getElem? tok maxLen rows i hi, ?_, ?_, ?_⟩
  · simp only [PiqaInstances.core]
    exact List.mem_map.mpr ⟨(name, rows), hsplit, rfl⟩
  · by_cases h : rows[i].label ≥ 0
    · simp [piqaExpectedInstance, alookupFirst, h]
    · simp [piqaExpectedInstance, alookupFirst, h]
  · intro h
    simp [piqaExpectedInstance, alookupFirst, h]
  · intro h
    have h2 : ¬rows[i].label ≥ 0 := by omega
    simp only [piqaExpectedInstance, if_neg h2]

/-- Witness for C10 at the concrete row with the sentinel label -1. -/
theorem piqa_conditional_label_field_witness :
    PiqaInstances.run sampleTokenizer samplePiqa 512
        = .ok (PiqaInstances.core sampleTokenizer samplePiqa 512) ∧
    ("train", piqaOutputSplit sampleTokenizer 512 sampleRows)
        ∈ (PiqaInstances.core sampleTokenizer samplePiqa 512).splits ∧
    (piqaOutputSplit sampleTokenizer 512 sampleRows)[1]?
        = some (piqaExpectedInstance sampleTokenizer 512 (⟨"h", "t1", "t2", -1⟩ : PiqaRow)) ∧
    ((alookupFirst (piqaExpectedInstance sampleTokenizer 512
          (⟨"h", "t1", "t2", -1⟩ : PiqaRow)).fields "correct_alternative").isSome
        ↔ (⟨"h", "t1", "t2", -1⟩ : PiqaRow).label ≥ 0) ∧
    ((⟨"h", "t1", "t2", -1⟩ : PiqaRow).label ≥ 0 →
      alookupFirst (piqaExpectedInstance sampleTokenizer 512
          (⟨"h", "t1", "t2", -1⟩ : PiqaRow)).fields "correct_alternative"
        = some (.indexF (⟨"h", "t1", "t2", -1⟩ : PiqaRow).label
            (piqaExpectedAlts sampleTokenizer 512 (⟨"h", "t1", "t2", -1⟩ : PiqaRow)))) ∧
    ((⟨"h", "t1", "t2", -1⟩ : PiqaRow).label < 0 →
      (piqaExpectedInstance sampleTokenizer 512 (⟨"h", "t1", "t2", -1⟩ : PiqaRow)).fields
        = [("alternatives", piqaExpectedAlts sampleTokenizer 512
            (⟨"h", "t1", "t2", -1⟩ : PiqaRow))]) :=
  piqa_conditional_label_field sampleTokenizer samplePiqa 512 "train" sampleRows 1
    rfl (by simp [samplePiqa]) (by decide)

/-- C2: every string at a selected path becomes, at its position, the
`TransformerTextField` built from the tokenizer's batch encoding of that
string.  The replacement is `mkStringField tok aS mL stm om s`, a function
of the string alone, so equal strings receive identical fields. -/
theorem tokenize_selected_strings
    (fm : String → String → Bool) (tok : Tokenizer) (input : AllenNlpDataset JsonValue)
    (fields : Option (List String)) (aS : Bool) (mL : Option Nat) (stm om : Bool)
    (name : String) (insts : List JsonValue) (inst : JsonValue)
    (p : List PathElem) (s : String)
    (hpad : tok.pad_token_type_id = 0)
    (hsplit : (name, insts) ∈ input.splits) (hinst : inst ∈ insts)
    (hget : getPath inst p = some (.str s))
    (hsel : shouldTokenizeField fm fields (pathStrFrom "" p) = true) :
    Tokenize.run fm tok input fields aS mL stm om
        = .ok (Tokenize.core fm tok input fields aS mL stm om) ∧
    (name, insts.map (replaceV (Tokenize.stringLookup fm tok input fields aS mL stm om)))
        ∈ (Tokenize.core fm tok input fields aS mL stm om).splits ∧
    getPath (replaceV (Tokenize.stringLookup fm tok input fields aS mL stm om) inst) p
        = some (.field (mkStringField tok aS mL stm om s)) := by
  have hfind := getPath_mem_findStrV (shouldTokenizeField fm fields) p inst "" s hget hsel
  have hmem := mem_gatherStrings (shouldTokenizeField fm fields) input.splits
    name insts inst _ s hsplit hinst hfind
  have hlk := stringLookup_mem fm tok input fields aS mL stm om s hmem
  refine ⟨by simp [Tokenize.run, hpad], ?_, ?_⟩
  · simp only [Tokenize.core]
    refine List.mem_map.mpr ⟨(name, insts), hsplit, ?_⟩
    simp [replaceL_eq_map]
  · rw [getPath_replaceV (Tokenize.stringLookup fm tok input fields aS mL stm om) p inst s hget,
      hlk]

/-- Witness for C2: the selected field `a` of the concrete instance. -/
theorem tokenize_selected_strings_witness :
    Tokenize.run sampleFullmatch sampleTokenizer sampleInput (some ["a"]) true (some 512) false false
        = .ok (Tokenize.core sampleFullmatch sampleTokenizer sampleInput (some ["a"]) true
            (some 512) false false) ∧
    ("train", [sampleInstance].map (replaceV (Tokenize.stringLookup sampleFullmatch sampleTokenizer
          sampleInput (some ["a"]) true (some 512) false false)))
        ∈ (Tokenize.core sampleFullmatch sampleTokenizer sampleInput (some ["a"]) true
            (some 512) false false).splits ∧
    getPath (replaceV (Tokenize.stringLookup sampleFullmatch sampleTokenizer sampleInput
          (some ["a"]) true (some 512) false false) sampleInstance) [.key "a"]
        = some (.field (mkStringField sampleTokenizer true (some 512) false false "x")) :=
  tokenize_selected_strings sampleFullmatch sampleTokenizer sampleInput (some ["a"]) true
    (some 512) false false "train" [sampleInstance] sampleInstance [.key "a"] "x"
    rfl (by simp [sampleInput]) (by simp) rfl (by decide)

/-- C8: `Tokenize.run` keeps the split names, and within each split the
whole nesting structure: `SameShape` forces dicts to keep their keys, lists
to keep length and order (`Dataset`s re-materialized as lists), non-string
leaves to be returned unchanged, and only string leaves to be replaced. -/
theorem tokenize_preserves_structure
    (fm : String → String → Bool) (tok : Tokenizer) (input : AllenNlpDataset JsonValue)
    (fields : Option (List String)) (aS : Bool) (mL : Option Nat) (stm om : Bool)
    (name : String) (insts : List JsonValue)
    (hpad : tok.pad_token_type_id = 0)
    (hsplit : (name, insts) ∈ input.splits) :
    Tokenize.run fm tok input fields aS mL stm om
        = .ok (Tokenize.core fm tok input fields aS mL stm om) ∧
    (Tokenize.core fm tok input fields aS mL stm om).splits.map Prod.fst
        = input.splits.map Prod.fst ∧
    (name, replaceL (Tokenize.stringLookup fm tok input fields aS mL stm om) insts)
        ∈ (Tokenize.core fm tok input fields aS mL stm om).splits ∧
    SameShapeL insts (replaceL (Tokenize.stringLookup fm tok input fields aS mL stm om) insts) := by
  refine ⟨by simp [Tokenize.run, hpad], ?_, ?_, sameShapeL_replaceL _ insts⟩
  · simp only [Tokenize.core]
    exact map_fst_map_pair _ input.splits
  · simp only [Tokenize.core]
    exact List.mem_map.mpr ⟨(name, insts), hsplit, rfl⟩

/-- Witness for C8 at the concrete dataset. -/
theorem tokenize_preserves_structure_witness :
    Tokenize.run sampleFullmatch sampleTokenizer sampleInput (some ["a"]) true (some 512) false false
        = .ok (Tokenize.core sampleFullmatch sampleTokenizer sampleInput (some ["a"]) true
            (some 512) false false) ∧
    (Tokenize.core sampleFullmatch sampleTokenizer sampleInput (some ["a"]) true (some 512)
        false false).splits.map Prod.fst = sampleInput.splits.map Prod.fst ∧
    ("train", replaceL (Tokenize.stringLookup sampleFullmatch sampleTokenizer sampleInput
          (some ["a"]) true (some 512) false false) [sampleInstance])
        ∈ (Tokenize.core sampleFullmatch sampleTokenizer sampleInput (some ["a"]) true
            (some 512) false false).splits ∧
    SameShapeL [sampleInstance] (replaceL (Tokenize.stringLookup sampleFullmatch sampleTokenizer
          sampleInput (some ["a"]) true (some 512) false false) [sampleInstance]) :=
  tokenize_preserves_structure sampleFullmatch sampleTokenizer sampleInput (some ["a"]) true
    (some 512) false false "train" [sampleInstance] rfl (by simp [sampleInput])

/-- Counterexample to C9: with `fields_to_tokenize = ["a"]` the path `b` is
not selected, yet its string `"x"` does not appear unchanged in the output:
the replacement dict is keyed by string value, and `"x"` also occurs at the
selected path `a`, so the occurrence at `b` is replaced by a field too. -/
theorem tokenize_unmatched_string_replaced :
    shouldTokenizeField sampleFullmatch (some ["a"]) (pathStrFrom "" [.key "b"]) = false ∧
    getPath sampleInstance [.key "b"] = some (.str "x") ∧
    (Tokenize.core sampleFullmatch sampleTokenizer sampleInput (some ["a"]) true (some 512)
        false false).splits
      = [("train", [replaceV (Tokenize.stringLookup sampleFullmatch sampleTokenizer sampleInput
          (some ["a"]) true (some 512) false false) sampleInstance])] ∧
    getPath (replaceV (Tokenize.stringLookup sampleFullmatch sampleTokenizer sampleInput
          (some ["a"]) true (some 512) false false) sampleInstance) [.key "b"]
      = some (.field (mkStringField sampleTokenizer true (some 512) false false "x")) ∧
    getPath (replaceV (Tokenize.stringLookup sampleFullmatch sampleTokenizer sampleInput
          (some ["a"]) true (some 512) false false) sampleInstance) [.key "b"]
      ≠ some (.str "x") := by
  have hout : getPath (replaceV (Tokenize.stringLookup sampleFullmatch sampleTokenizer sampleInput
          (some ["a"]) true (some 512) false false) sampleInstance) [.key "b"]
      = some (.field (mkStringField sampleTokenizer true (some 512) false false "x")) := rfl
  refine ⟨by decide, rfl, rfl, hout, ?_⟩
  intro h
  rw [hout] at h
  exact JsonValue.noConfusion (Option.some.inj h)

/-- C9 amended: a string value with no occurrence at any selected path
anywhere in the dataset is passed through unchanged at its position (the
caught `KeyError` path); an unselected occurrence of a string that is
selected elsewhere is replaced instead — see the counterexample. -/
theorem tokenize_ungathered_string_passthrough
    (fm : String → String → Bool) (tok : Tokenizer) (input : AllenNlpDataset JsonValue)
    (fields : Option (List String)) (aS : Bool) (mL : Option Nat) (stm om : Bool)
    (name : String) (insts : List JsonValue) (inst : JsonValue)
    (p : List PathElem) (s : String)
    (hpad : tok.pad_token_type_id = 0)
    (hsplit : (name, insts) ∈ input.splits) (hinst : inst ∈ insts)
    (hget : getPath inst p = some (.str s))
    (hnot : s ∉ gatherStrings (shouldTokenizeField fm fields) input.splits) :
    Tokenize.run fm tok input fields aS mL stm om
        = .ok (Tokenize.core fm tok input fields aS mL stm om) ∧
    (name, insts.map (replaceV (Tokenize.stringLookup fm tok input fields aS mL stm om)))
        ∈ (Tokenize.core fm tok input fields aS mL stm om).splits ∧
    getPath (replaceV (Tokenize.stringLookup fm tok input fields aS mL stm om) inst) p
        = some (.str s) := by
  have hlk := stringLookup_not_mem fm tok input fields aS mL stm om s hnot
  refine ⟨by simp [Tokenize.run, hpad], ?_, ?_⟩
  · simp only [Tokenize.core]
    refine List.mem_map.mpr ⟨(name, insts), hsplit, ?_⟩
    simp [replaceL_eq_map]
  · rw [getPath_replaceV (Tokenize.stringLookup fm tok input fields aS mL stm om) p inst s hget,
      hlk]

/-- Witness for the amended C9: the string `"y"` occurs only at the
unselected path `d` and passes through unchanged. -/
theorem tokenize_ungathered_string_passthrough_witness :
    Tokenize.run sampleFullmatch sampleTokenizer sampleInput2 (some ["a"]) true (some 512)
        false false
      = .ok (Tokenize.core sampleFullmatch sampleTokenizer sampleInput2 (some ["a"]) true
          (some 512) false false) ∧
    ("train", [sampleInstance2].map (replaceV (Tokenize.stringLookup sampleFullmatch
          sampleTokenizer sampleInput2 (some ["a"]) true (some 512) false false)))
        ∈ (Tokenize.core sampleFullmatch sampleTokenizer sampleInput2 (some ["a"]) true
            (some 512) false false).splits ∧
    getPath (replaceV (Tokenize.stringLookup sampleFullmatch sampleTokenizer sampleInput2
          (some ["a"]) true (some 512) false false) sampleInstance2) [.key "d"]
        = some (.str "y") :=
  tokenize_ungathered_string_passthrough sampleFullmatch sampleTokenizer sampleInput2
    (some ["a"]) true (some 512) false false "train" [sampleInstance2] sampleInstance2
    [.key "d"] "y" rfl (by simp [sampleInput2]) (by simp) rfl (by decide)

/-- Counterexample to C6: the concrete input holds the string `"y"` with no
entry in `string_to_field` (its path `d` is not selected), so the lookup
performed while replacing it raises `KeyError`; the claimed propagation
does not happen — the call returns `ok` and the string survives. -/
theorem tokenize_keyerror_not_propagated :
    Tokenize.stringLookup sampleFullmatch sampleTokenizer sampleInput2 (some ["a"]) true
        (some 512) false false "y" = none ∧
    Tokenize.run sampleFullmatch sampleTokenizer sampleInput2 (some ["a"]) true (some 512)
        false false
      = .ok (Tokenize.core sampleFullmatch sampleTokenizer sampleInput2 (some ["a"]) true
          (some 512) false false) ∧
    getPath (replaceV (Tokenize.stringLookup sampleFullmatch sampleTokenizer sampleInput2
          (some ["a"]) true (some 512) false false) sampleInstance2) [.key "d"]
      = some (.str "y") :=
  ⟨rfl, rfl, rfl⟩

/-- C6 amended: the missing-key `KeyError` of the string-to-field lookup is
caught inside `replace_string_objects` — a string with no entry is returned
unchanged, one with an entry becomes its field — so replacement always
succeeds and `Tokenize.run` never surfaces a `KeyError`; its only exception
is the tokenizer-configuration `AssertionError`. -/
theorem tokenize_lookup_failure_handled
    (lk : String → Option TransformerTextField) (s : String)
    (fm : String → String → Bool) (tok : Tokenizer) (input : AllenNlpDataset JsonValue)
    (fields : Option (List String)) (aS : Bool) (mL : Option Nat) (stm om : Bool) :
    (lk s = none → replaceV lk (.str s) = .str s) ∧
    (∀ f, lk s = some f → replaceV lk (.str s) = .field f) ∧
    Tokenize.run fm tok input fields aS mL stm om ≠ .error .keyError := by
  refine ⟨?_, ?_, ?_⟩
  · intro h
    rw [replaceV, h]
  · intro f h
    rw [replaceV, h]
  · unfold Tokenize.run
    by_cases h : tok.pad_token_type_id = 0 <;> simp [h]

/-- Witness for the amended C6 at the concrete input: the unmatched string
passes through, the matched one becomes its field, the run is no KeyError. -/
theorem tokenize_lookup_failure_handled_witness :
    replaceV (Tokenize.stringLookup sampleFullmatch sampleTokenizer sampleInput2 (some ["a"])
        true (some 512) false false) (.str "y") = .str "y" ∧
    replaceV (Tokenize.stringLookup sampleFullmatch sampleTokenizer sampleInput2 (some ["a"])
        true (some 512) false false) (.str "x")
      = .field (mkStringField sampleTokenizer true (some 512) false false "x") ∧
    Tokenize.run sampleFullmatch sampleTokenizer sampleInput2 (some ["a"]) true (some 512)
        false false ≠ .error .keyError :=
  ⟨(tokenize_lookup_failure_handled (Tokenize.stringLookup sampleFullmatch sampleTokenizer
      sampleInput2 (some ["a"]) true (some 512) false false) "y" sampleFullmatch sampleTokenizer
      sampleInput2 (some ["a"]) true (some 512) false false).1 rfl,
   (tokenize_lookup_failure_handled (Tokenize.stringLookup sampleFullmatch sampleTokenizer
      sampleInput2 (some ["a"]) true (some 512) false false) "x" sampleFullmatch sampleTokenizer
      sampleInput2 (some ["a"]) true (some 512) false false).2.1 _ rfl,
   (tokenize_lookup_failure_handled (Tokenize.stringLookup sampleFullmatch sampleTokenizer
      sampleInput2 (some ["a"]) true (some 512) false false) "y" sampleFullmatch sampleTokenizer
      sampleInput2 (some ["a"]) true (some 512) false false).2.2⟩

end Allennlp
